import Mathlib

/-!
Verification development for the diorb disk-benchmark core.

The definitions below are a shallow embedding of the Rust sources:
  - src/config/mod.rs        (BenchmarkConfig, BenchmarkMode, validate)
  - src/models/result.rs     (LatencyStats, PerformanceMetrics, BenchmarkResult)
  - src/bench/sequential.rs  (SequentialBenchmark, ProgressUpdate, run loops, calculate_metrics)
  - src/bench/random.rs      (RandomBenchmark, run loop)
  - src/bench/worker.rs      (WorkerManager, WorkerStatus, combine_results, cancel_all,
                              wait_for_completion, spawn_sequential_worker)
  - src/io/buffer.rs         (BufferPool)

Conventions: u64 and usize become Nat (the values handled by the program are far below
2^64, and debug-mode Rust panics rather than wraps, so unbounded Nat is the faithful
reading); Duration becomes a Nat of nanoseconds; f64 and f32 values become Rat
(the code only forms them by exact casts, divisions and comparisons); filesystem facts
(path exists / is a directory) become Boolean fields of the config; wall-clock time,
progress-emission timing and random draws become explicit oracle functions.
-/

/-- Ascending in-place sort, modelling Vec sort on durations. -/
def sortNat (l : List Nat) : List Nat := List.insertionSort (· ≤ ·) l

/-- Seconds of a nanosecond duration, modelling Duration as-secs-f64. -/
def durationSecs (ns : Nat) : ℚ := (ns : ℚ) / 1000000000

/-- Latency statistics (models/result.rs LatencyStats).  The percentile map is
represented as an association list; the code only ever inserts keys 50, 95, 99. -/
structure LatencyStats where
  min : Nat
  avg : Nat
  max : Nat
  percentiles : List (Nat × Nat)
deriving DecidableEq, Repr

/-- LatencyStats default: all zero, empty percentile map. -/
def LatencyStats.default : LatencyStats := ⟨0, 0, 0, []⟩

/-- Embeds LatencyStats from-samples (models/result.rs lines 286-310): sort the samples,
take first/last as min/max, integer-average the nanoseconds, and index percentiles at
len * p / 100. -/
def LatencyStats.from_samples (samples : List Nat) : LatencyStats :=
  if samples = [] then LatencyStats.default
  else
    let sorted := sortNat samples
    let n := sorted.length
    { min := sorted.getD 0 0
      avg := sorted.sum / n
      max := sorted.getD (n - 1) 0
      percentiles := [(50, sorted.getD (n * 50 / 100) 0),
                      (95, sorted.getD (n * 95 / 100) 0),
                      (99, sorted.getD (n * 99 / 100) 0)] }

/-- Performance metrics (models/result.rs PerformanceMetrics). -/
structure PerformanceMetrics where
  bytes_processed : Nat
  elapsed_time : Nat
  throughput_mbps : ℚ
  iops : ℚ
  latency : LatencyStats
deriving DecidableEq, Repr

/-- Benchmark mode (config/mod.rs BenchmarkMode).  The Mixed read_ratio f32 is a Rat. -/
inductive BenchmarkMode where
  | sequentialWrite
  | sequentialRead
  | randomReadWrite
  | mixed (read_ratio : ℚ)
deriving DecidableEq, Repr

/-- True for the two sequential modes (config/mod.rs uses-file-size). -/
def BenchmarkMode.uses_file_size : BenchmarkMode → Bool
  | .sequentialWrite | .sequentialRead => true
  | _ => false

/-- Benchmark configuration (config/mod.rs BenchmarkConfig).  The disk path is
abstracted by the two facts validate queries about it. -/
structure BenchmarkConfig where
  path_exists : Bool
  path_is_dir : Bool
  mode : BenchmarkMode
  file_size : Nat
  block_size : Nat
  duration : Nat
  thread_count : Nat
  keep_temp_files : Bool
deriving DecidableEq, Repr

/-- Rust u64 is-power-of-two (count of one bits equals one).  Stated arithmetically
over the u64 range: the value is exactly one set bit, that is, 2 to some power below
64. -/
def is_power_of_two (n : Nat) : Bool := decide (∃ k < 64, n = 2 ^ k)

/-- The Mixed-mode read-ratio range check of validate (config/mod.rs lines 209-218):
true exactly when the mode is Mixed and the ratio falls outside the closed unit
interval. -/
def BenchmarkMode.mixed_ratio_out_of_range : BenchmarkMode → Bool
  | .mixed r => decide (r < 0 ∨ 1 < r)
  | _ => false

/-- Embeds BenchmarkConfig validate (config/mod.rs lines 113-221), check for check and
in the same order.  100 GiB = 107374182400 bytes; 1 MiB = 1048576 bytes; one hour =
3600000000000 nanoseconds. -/
def BenchmarkConfig.validate (c : BenchmarkConfig) : Except String Unit :=
  if c.path_exists = false then .error "Disk path does not exist"
  else if c.path_is_dir = false then .error "Disk path is not a directory"
  else if c.file_size = 0 then .error "File size must be greater than 0"
  else if 107374182400 < c.file_size then .error "File size too large"
  else if c.block_size = 0 then .error "Block size must be greater than 0"
  else if is_power_of_two c.block_size = false then .error "Block size must be a power of 2"
  else if c.block_size < 512 ∨ 1048576 < c.block_size then
    .error "Block size must be between 512 and 1048576 bytes"
  else if c.mode.uses_file_size = true ∧ c.file_size < c.block_size then
    .error "File size must be larger than block size for sequential operations"
  else if c.duration = 0 then .error "Duration must be greater than 0"
  else if 3600000000000 < c.duration then .error "Duration too long"
  else if c.thread_count = 0 then .error "Thread count must be greater than 0"
  else if 64 < c.thread_count then .error "Too many threads"
  else if c.mode.mixed_ratio_out_of_range = true then
    .error "Read ratio must be between 0.0 and 1.0"
  else .ok ()

/-- Per-worker file size chosen by spawn-sequential-worker (bench/worker.rs lines
195-200): for more than one worker the configured total is divided by the worker
count with integer division, otherwise it is kept as is. -/
def spawn_worker_file_size (c : BenchmarkConfig) : Nat :=
  if 1 < c.thread_count then c.file_size / c.thread_count else c.file_size

/-- Buffer pool state (io/buffer.rs BufferPool).  The deque of pooled buffers is a list
with its head at the front of the queue; a buffer is its byte contents. -/
structure BufferPool where
  buffers : List (List Nat)
  buffer_size : Nat
  max_buffers : Nat
deriving DecidableEq, Repr

/-- Embeds BufferPool new (io/buffer.rs lines 14-27): fails when either argument is
zero, else starts with an empty deque. -/
def BufferPool.new (buffer_size max_buffers : Nat) : Except String BufferPool :=
  if buffer_size = 0 then .error "Buffer size must be greater than 0"
  else if max_buffers = 0 then .error "Max buffers must be greater than 0"
  else .ok ⟨[], buffer_size, max_buffers⟩

/-- Embeds BufferPool get-buffer (io/buffer.rs lines 30-42): pop the front of the
deque, or allocate a fresh zeroed buffer of the configured size. -/
def BufferPool.get_buffer (p : BufferPool) : BufferPool × List Nat :=
  match p.buffers with
  | [] => (p, List.replicate p.buffer_size 0)
  | b :: rest => ({ p with buffers := rest }, b)

/-- Embeds BufferPool return-buffer (io/buffer.rs lines 45-57): only a buffer of the
configured size is pooled, only while the deque is below max_buffers, and it is zeroed
(fill 0) before being pushed to the back. -/
def BufferPool.return_buffer (p : BufferPool) (buffer : List Nat) : BufferPool :=
  if buffer.length = p.buffer_size then
    if p.buffers.length < p.max_buffers then
      { p with buffers := p.buffers ++ [List.replicate buffer.length 0] }
    else p
  else p

/-- A client-side action on a shared buffer pool: acquire a buffer, or hand one back. -/
inductive PoolOp where
  | get
  | ret (buffer : List Nat)

/-- Effect of one pool action on the pool state (the acquired buffer goes to the
client and is not tracked here). -/
def BufferPool.step : BufferPool → PoolOp → BufferPool
  | p, .get => (p.get_buffer).1
  | p, .ret b => p.return_buffer b

/-- Runs a sequence of pool actions from a given pool state. -/
def BufferPool.runOps (p : BufferPool) (ops : List PoolOp) : BufferPool :=
  ops.foldl BufferPool.step p

/-- Progress update (bench/sequential.rs ProgressUpdate).  Only the two byte counters
are carried: the remaining fields (throughput, iops, elapsed, eta) are wall-clock
derived display data that no claim constrains. -/
structure ProgressUpdate where
  bytes_processed : Nat
  total_bytes : Nat
deriving DecidableEq, Repr

/-- Embeds ProgressUpdate completion-percentage (bench/sequential.rs lines 33-42). -/
def ProgressUpdate.completion_percentage (u : ProgressUpdate) : ℚ :=
  if u.total_bytes = 0 then 0
  else (u.bytes_processed : ℚ) / (u.total_bytes : ℚ)

/-- Embeds the block loop of run-sequential-write (bench/sequential.rs lines 102-190).
State: bytes written so far and the iteration index.  Oracles: emit i is true when the
100 ms progress timer has expired at iteration i, and recv_open says whether the
progress receiver is still alive (a send fails exactly when it is not).  Disk writes
always write the requested chunk; a zero-sized chunk reproduces the written == 0 error
return.  The returned list holds every update handed to the channel, the in-loop ones
followed by the unconditional final one (whose failed send the code ignores); the
returned Nat is the final bytes-written count.  fuel bounds the recursion and is set by
the caller so that it never runs out (the loop writes at least one byte per
iteration). -/
def seqWriteLoop (fs bs : Nat) (emit : Nat → Bool) (recv_open : Bool) :
    Nat → Nat → Nat → Except String (List ProgressUpdate × Nat)
  | 0, _, _ => .error "out of fuel"
  | fuel + 1, bytes, i =>
    if bytes < fs then
      let ws := min (fs - bytes) bs
      if ws = 0 then .error "Write returned 0 bytes"
      else
        let bytes' := bytes + ws
        if emit i then
          if recv_open then
            match seqWriteLoop fs bs emit recv_open fuel bytes' (i + 1) with
            | .error e => .error e
            | .ok (us, total) => .ok (⟨bytes', fs⟩ :: us, total)
          else .error "Benchmark cancelled"
        else seqWriteLoop fs bs emit recv_open fuel bytes' (i + 1)
    else .ok ([⟨bytes, fs⟩], bytes)

/-- Embeds run-sequential-write (bench/sequential.rs lines 78-191) from the start of
the block loop: zero bytes written, iteration zero.  fs + 1 fuel suffices since every
iteration writes at least one byte. -/
def run_sequential_write (fs bs : Nat) (emit : Nat → Bool) (recv_open : Bool) :
    Except String (List ProgressUpdate × Nat) :=
  seqWriteLoop fs bs emit recv_open (fs + 1) 0 0

/-- Embeds the block loop of run-sequential-read (bench/sequential.rs lines 220-301).
readRes i is the byte count the i-th read call returns (clamped to the requested size,
as the disk contract guarantees); a zero-byte read is end-of-file and breaks out of the
loop as normal completion, after which the final update still carries the short byte
count.  Everything else is as in seqWriteLoop. -/
def seqReadLoop (fs bs : Nat) (readRes : Nat → Nat) (emit : Nat → Bool)
    (recv_open : Bool) : Nat → Nat → Nat → Except String (List ProgressUpdate × Nat)
  | 0, _, _ => .error "out of fuel"
  | fuel + 1, bytes, i =>
    if bytes < fs then
      let rs := min (fs - bytes) bs
      let got := min (readRes i) rs
      if got = 0 then .ok ([⟨bytes, fs⟩], bytes)
      else
        let bytes' := bytes + got
        if emit i then
          if recv_open then
            match seqReadLoop fs bs readRes emit recv_open fuel bytes' (i + 1) with
            | .error e => .error e
            | .ok (us, total) => .ok (⟨bytes', fs⟩ :: us, total)
          else .error "Benchmark cancelled"
        else seqReadLoop fs bs readRes emit recv_open fuel bytes' (i + 1)
    else .ok ([⟨bytes, fs⟩], bytes)

/-- Embeds run-sequential-read (bench/sequential.rs lines 194-302) from the start of
the block loop (the preceding synthesis of the scratch file emits no progress). -/
def run_sequential_read (fs bs : Nat) (readRes : Nat → Nat) (emit : Nat → Bool)
    (recv_open : Bool) : Except String (List ProgressUpdate × Nat) :=
  seqReadLoop fs bs readRes emit recv_open (fs + 1) 0 0

/-- One operation of the random loop: a read or a write. -/
inductive RWOp where
  | read
  | write
deriving DecidableEq, Repr

/-- Embeds the duration loop of RandomBenchmark run (bench/random.rs lines 93-141).
Oracles: clock k is the elapsed nanoseconds at the k-th loop-condition check, draw k
the gen f32 sample of iteration k (a value in the unit interval), emit k whether the
200 ms progress timer has expired in iteration k, recv_open whether the progress
receiver is alive.  Each iteration performs one read when draw k < read_ratio, else
one write, and adds block_size to bytes_processed.  The result lists the operations in
order together with the final bytes_processed.  fuel bounds the recursion; a run that
leaves the loop after n iterations is modelled with any fuel of at least n, so the
fuel-exhaustion branch coincides with the clock exit. -/
def randLoop (duration bs : Nat) (read_ratio : ℚ) (clock : Nat → Nat) (draw : Nat → ℚ)
    (emit : Nat → Bool) (recv_open : Bool) : Nat → Nat → Except String (List RWOp × Nat)
  | 0, _ => .ok ([], 0)
  | fuel + 1, k =>
    if duration ≤ clock k then .ok ([], 0)
    else
      let op := if draw k < read_ratio then RWOp.read else RWOp.write
      if emit k ∧ recv_open = false then .error "Receiver dropped"
      else
        match randLoop duration bs read_ratio clock draw emit recv_open fuel (k + 1) with
        | .error e => .error e
        | .ok (ops, bytes) => .ok (op :: ops, bytes + bs)

/-- Embeds RandomBenchmark run (bench/random.rs lines 41-198) from the first
loop-condition check (the preceding pre-fill of the scratch file emits no progress). -/
def random_run (duration bs : Nat) (read_ratio : ℚ) (clock : Nat → Nat)
    (draw : Nat → ℚ) (emit : Nat → Bool) (recv_open : Bool) (fuel : Nat) :
    Except String (List RWOp × Nat) :=
  randLoop duration bs read_ratio clock draw emit recv_open fuel 0

/-- Worker status (bench/worker.rs WorkerStatus). -/
inductive WorkerStatus where
  | idle
  | running
  | completed
  | failed (reason : String)
  | cancelled
deriving DecidableEq, Repr

/-- One orchestrated worker (bench/worker.rs WorkerInfo).  The join handle carries the
outcome the task will deliver when joined: none once taken, some none for success,
some (some e) for a task error (the cancel-send channel is part of the same race and
needs no separate field for the state claims). -/
structure WorkerInfo where
  status : WorkerStatus
  handle : Option (Option String)
deriving DecidableEq, Repr

/-- Embeds WorkerInfo is-active (bench/worker.rs lines 61-63). -/
def WorkerInfo.is_active (w : WorkerInfo) : Bool :=
  match w.status with
  | .running => true
  | _ => false

/-- Embeds WorkerInfo is-completed (bench/worker.rs lines 66-68). -/
def WorkerInfo.is_completed (w : WorkerInfo) : Bool :=
  match w.status with
  | .completed | .failed _ | .cancelled => true
  | _ => false

/-- Effect of cancel-all on one worker (bench/worker.rs lines 382-395): only an active
worker is marked Cancelled (its cancel sender is consumed; the join handle stays). -/
def cancel_worker (w : WorkerInfo) : WorkerInfo :=
  if w.is_active then { w with status := .cancelled } else w

/-- Effect of wait-for-completion on one worker (bench/worker.rs lines 398-422): when
the join handle is still present it is taken and awaited, and the status is overwritten
with Completed on task success or Failed on task error, whatever it was before. -/
def join_worker (w : WorkerInfo) : WorkerInfo :=
  match w.handle with
  | none => w
  | some none => { status := .completed, handle := none }
  | some (some e) => { status := .failed e, handle := none }

/-- The orchestrator moves of one worker: spawning it (bench/worker.rs lines 155-178,
Idle to Running with a fresh handle), a cancel-all pass, a wait-for-completion join. -/
inductive WorkerStep : WorkerInfo → WorkerInfo → Prop where
  | spawn (r : Option String) : WorkerStep ⟨.idle, none⟩ ⟨.running, some r⟩
  | cancel (w : WorkerInfo) : WorkerStep w (cancel_worker w)
  | join (w : WorkerInfo) : WorkerStep w (join_worker w)

/-- Worker states reachable from the freshly constructed worker (bench/worker.rs
lines 50-58: Idle, no handle). -/
inductive WorkerReachable : WorkerInfo → Prop where
  | init : WorkerReachable ⟨.idle, none⟩
  | step {w w' : WorkerInfo} : WorkerReachable w → WorkerStep w w' → WorkerReachable w'

/-- Benchmark result (models/result.rs BenchmarkResult) restricted to its metrics;
timestamp, config copy and system-info snapshot are irrelevant to every claim and are
carried through combine-results unchanged from the first result. -/
structure BenchmarkResultM where
  metrics : PerformanceMetrics
deriving DecidableEq, Repr

/-- Embeds WorkerManager combine-results (bench/worker.rs lines 443-518).  block_size
is the manager config block size (used only for the combined iops).  The first result
is the base; bytes are summed, elapsed is the running max from zero, and the latency
stats are rebuilt from the pushed min/avg/max triplet of every worker. -/
def combine_results (block_size : Nat) :
    List BenchmarkResultM → Except String BenchmarkResultM
  | [] => .error "No results to combine"
  | r0 :: rest =>
    let results := r0 :: rest
    let total_bytes : Nat := (results.map (fun r => r.metrics.bytes_processed)).sum
    let max_elapsed : Nat := (results.map (fun r => r.metrics.elapsed_time)).foldl Nat.max 0
    let all_latency_samples :=
      results.flatMap (fun r =>
        [r.metrics.latency.min, r.metrics.latency.avg, r.metrics.latency.max])
    let combined_latency :=
      if all_latency_samples = [] then LatencyStats.default
      else
        let sorted := sortNat all_latency_samples
        let n := sorted.length
        { min := sorted.getD 0 0
          avg := sorted.sum / n
          max := sorted.getD (n - 1) 0
          percentiles := [(50, sorted.getD (n * 50 / 100) 0),
                          (95, sorted.getD (n * 95 / 100) 0),
                          (99, sorted.getD (n * 99 / 100) 0)] }
    let elapsed_secs := durationSecs max_elapsed
    let throughput_mbps : ℚ :=
      if 0 < elapsed_secs then (total_bytes : ℚ) / (1024 * 1024) / elapsed_secs else 0
    let iops : ℚ :=
      if 0 < elapsed_secs ∧ combined_latency.avg ≠ 0 then
        (total_bytes : ℚ) / (block_size : ℚ) / elapsed_secs
      else 0
    .ok { r0 with
          metrics := { bytes_processed := total_bytes
                       elapsed_time := max_elapsed
                       throughput_mbps := throughput_mbps
                       iops := iops
                       latency := combined_latency } }

/-- Embeds SequentialBenchmark calculate-metrics (bench/sequential.rs lines 351-407). -/
def calculate_metrics (bytes_processed : Nat) (elapsed : Nat)
    (latency_samples : List Nat) : PerformanceMetrics :=
  let elapsed_secs := durationSecs elapsed
  let throughput_mbps : ℚ :=
    if 0 < elapsed_secs then (bytes_processed : ℚ) / (1024 * 1024) / elapsed_secs else 0
  let iops : ℚ :=
    if 0 < elapsed_secs then (latency_samples.length : ℚ) / elapsed_secs else 0
  let latency_stats :=
    if latency_samples = [] then LatencyStats.default
    else
      let sorted := sortNat latency_samples
      let n := sorted.length
      { min := sorted.getD 0 0
        avg := sorted.sum / n
        max := sorted.getD (n - 1) 0
        percentiles := [(50, sorted.getD (n * 50 / 100) 0),
                        (95, sorted.getD (n * 95 / 100) 0),
                        (99, sorted.getD (n * 99 / 100) 0)] }
  { bytes_processed := bytes_processed
    elapsed_time := elapsed
    throughput_mbps := throughput_mbps
    iops := iops
    latency := latency_stats }

/-- The sequential executor value (bench/sequential.rs SequentialBenchmark): a
validated config and its private buffer pool. -/
structure SequentialBenchmark where
  config : BenchmarkConfig
  buffer_pool : BufferPool
deriving DecidableEq, Repr

/-- Embeds SequentialBenchmark new (bench/sequential.rs lines 53-64): validates first,
then builds a four-buffer pool of block-size buffers.  No file is touched. -/
def SequentialBenchmark.new (c : BenchmarkConfig) : Except String SequentialBenchmark :=
  match c.validate with
  | .error e => .error e
  | .ok _ =>
    match BufferPool.new c.block_size 4 with
    | .error e => .error e
    | .ok pool => .ok ⟨c, pool⟩

/-- The random executor value (bench/random.rs RandomBenchmark). -/
structure RandomBenchmark where
  config : BenchmarkConfig
  buffer_pool : BufferPool
deriving DecidableEq, Repr

/-- Embeds RandomBenchmark new (bench/random.rs lines 29-38): validates first, then
builds a four-buffer pool.  No file is touched. -/
def RandomBenchmark.new (c : BenchmarkConfig) : Except String RandomBenchmark :=
  match c.validate with
  | .error e => .error e
  | .ok _ =>
    match BufferPool.new c.block_size 4 with
    | .error e => .error e
    | .ok pool => .ok ⟨c, pool⟩

/-- The worker manager value (bench/worker.rs WorkerManager), with its worker table. -/
structure WorkerManager where
  config : BenchmarkConfig
  workers : List WorkerInfo
  buffer_pool : BufferPool
deriving DecidableEq, Repr

/-- Embeds WorkerManager new (bench/worker.rs lines 114-127): validates first, then
builds a sixteen-buffer pool.  No worker is spawned and no file is touched. -/
def WorkerManager.new (c : BenchmarkConfig) : Except String WorkerManager :=
  match c.validate with
  | .error e => .error e
  | .ok _ =>
    match BufferPool.new c.block_size 16 with
    | .error e => .error e
    | .ok pool => .ok ⟨c, [], pool⟩

section MaxFoldLemmas

theorem left_le_foldl_max (l : List Nat) : ∀ a, a ≤ l.foldl Nat.max a := by
  induction l with
  | nil => intro a; exact le_refl a
  | cons x xs ih =>
    intro a
    exact le_trans (Nat.le_max_left a x) (ih (Nat.max a x))

theorem mem_le_foldl_max (l : List Nat) : ∀ a x, x ∈ l → x ≤ l.foldl Nat.max a := by
  induction l with
  | nil => intro a x hx; cases hx
  | cons y ys ih =>
    intro a x hx
    rcases List.mem_cons.mp hx with h | h
    · subst h
      exact le_trans (Nat.le_max_right a x) (left_le_foldl_max ys (Nat.max a x))
    · exact ih (Nat.max a y) x h

theorem foldl_max_mem (l : List Nat) : ∀ a, l.foldl Nat.max a = a ∨ l.foldl Nat.max a ∈ l := by
  induction l with
  | nil => intro a; exact Or.inl rfl
  | cons x xs ih =>
    intro a
    rcases ih (Nat.max a x) with h | h
    · rcases le_total a x with hax | hxa
      · refine Or.inr ?_
        have hmx : Nat.max a x = x := Nat.max_eq_right hax
        rw [List.foldl_cons, h, hmx]
        exact List.mem_cons_self _ _
      · refine Or.inl ?_
        have hmx : Nat.max a x = a := Nat.max_eq_left hxa
        rw [List.foldl_cons, h, hmx]
    · exact Or.inr (List.mem_cons_of_mem x h)

end MaxFoldLemmas

/-- C10: config validation does not protect the random offset draw.  There is a
configuration that validate accepts, in RandomReadWrite mode, whose file_size is
strictly below its block_size: on it the offset expression file_size - block_size in
the random loop underflows as u64 arithmetic, and the half-open draw range collapses
to the empty range (the truncated difference is zero), instead of any total,
error-returning path. -/
theorem random_offset_range_unprotected :
    ∃ c : BenchmarkConfig, c.validate = .ok ()
      ∧ c.mode = .randomReadWrite
      ∧ c.file_size < c.block_size
      ∧ c.file_size - c.block_size = 0 := by
  refine ⟨⟨true, true, .randomReadWrite, 512, 1024, 30000000000, 1, false⟩, ?_, rfl,
    by decide, by decide⟩
  rfl

theorem seqWriteLoop_ok (fs bs : Nat) (emit : Nat → Bool) (hbs : 0 < bs) :
    ∀ fuel bytes i, bytes ≤ fs → fs - bytes < fuel →
      ∃ us pre, seqWriteLoop fs bs emit true fuel bytes i = .ok (us, fs)
        ∧ us = pre ++ [⟨fs, fs⟩]
        ∧ (∀ u ∈ us, u.total_bytes = fs ∧ bytes ≤ u.bytes_processed ∧ u.bytes_processed ≤ fs)
        ∧ us.Chain' (fun u v => u.bytes_processed ≤ v.bytes_processed) := by
  intro fuel
  induction fuel with
  | zero => intro bytes i hle hlt; omega
  | succ fuel ih =>
    intro bytes i hle hlt
    by_cases h : bytes < fs
    · have hws : ¬ (min (fs - bytes) bs = 0) := by
        omega
      have hle' : bytes + min (fs - bytes) bs ≤ fs := by
        omega
      have hlt' : fs - (bytes + min (fs - bytes) bs) < fuel := by
        omega
      obtain ⟨us, pre, heq, hpre, hmem, hch⟩ := ih (bytes + min (fs - bytes) bs) (i + 1) hle' hlt'
      by_cases he : emit i = true
      · refine ⟨⟨bytes + min (fs - bytes) bs, fs⟩ :: us, ⟨bytes + min (fs - bytes) bs, fs⟩ :: pre,
          ?_, by rw [hpre]; rfl, ?_, ?_⟩
        · simp only [seqWriteLoop, if_pos h, if_neg hws, he, if_true, heq]
        · intro u hu
          rcases List.mem_cons.mp hu with h1 | h1
          · subst h1
            exact ⟨rfl, Nat.le_add_right _ _, hle'⟩
          · obtain ⟨h2, h3, h4⟩ := hmem u h1
            exact ⟨h2, le_trans (Nat.le_add_right _ _) h3, h4⟩
        · rw [List.chain'_cons']
          refine ⟨?_, hch⟩
          intro v hv
          exact (hmem v (List.mem_of_mem_head? hv)).2.1
      · have he' : emit i = false := by
          cases hemit : emit i
          · rfl
          · exact absurd hemit he
        refine ⟨us, pre, ?_, hpre, ?_, hch⟩
        · simp only [seqWriteLoop, if_pos h, if_neg hws, he', Bool.false_eq_true,
            if_false, heq]
        · intro u hu
          obtain ⟨h2, h3, h4⟩ := hmem u hu
          exact ⟨h2, le_trans (Nat.le_add_right _ _) h3, h4⟩
    · have hbf : bytes = fs := by omega
      subst hbf
      refine ⟨[⟨bytes, bytes⟩], [], ?_, rfl, ?_, ?_⟩
      · simp [seqWriteLoop, h]
      · intro u hu
        rcases List.mem_cons.mp hu with h1 | h1
        · subst h1; exact ⟨rfl, le_refl _, le_refl _⟩
        · cases h1
      · exact List.chain'_singleton _

theorem seqReadLoop_ok (fs bs : Nat) (readRes : Nat → Nat) (emit : Nat → Bool) :
    ∀ fuel bytes i, bytes ≤ fs → fs - bytes < fuel →
      ∃ us pre total, seqReadLoop fs bs readRes emit true fuel bytes i = .ok (us, total)
        ∧ us = pre ++ [⟨total, fs⟩]
        ∧ bytes ≤ total ∧ total ≤ fs
        ∧ (∀ u ∈ us, u.total_bytes = fs ∧ bytes ≤ u.bytes_processed ∧ u.bytes_processed ≤ total)
        ∧ us.Chain' (fun u v => u.bytes_processed ≤ v.bytes_processed) := by
  intro fuel
  induction fuel with
  | zero => intro bytes i hle hlt; omega
  | succ fuel ih =>
    intro bytes i hle hlt
    by_cases h : bytes < fs
    · by_cases hg : min (readRes i) (min (fs - bytes) bs) = 0
      · refine ⟨[⟨bytes, fs⟩], [], bytes, ?_, rfl, le_refl _, le_of_lt h, ?_, ?_⟩
        · simp [seqReadLoop, if_pos h, hg]
        · intro u hu
          rcases List.mem_cons.mp hu with h1 | h1
          · subst h1; exact ⟨rfl, le_refl _, le_refl _⟩
          · cases h1
        · exact List.chain'_singleton _
      · have hle' : bytes + min (readRes i) (min (fs - bytes) bs) ≤ fs := by omega
        have hlt' : fs - (bytes + min (readRes i) (min (fs - bytes) bs)) < fuel := by omega
        obtain ⟨us, pre, total, heq, hpre, hbt, htf, hmem, hch⟩ :=
          ih (bytes + min (readRes i) (min (fs - bytes) bs)) (i + 1) hle' hlt'
        by_cases he : emit i = true
        · refine ⟨⟨bytes + min (readRes i) (min (fs - bytes) bs), fs⟩ :: us,
            ⟨bytes + min (readRes i) (min (fs - bytes) bs), fs⟩ :: pre, total,
            ?_, by rw [hpre]; rfl, by omega, htf, ?_, ?_⟩
          · simp only [seqReadLoop, if_pos h, if_neg hg, he, if_true, heq]
          · intro u hu
            rcases List.mem_cons.mp hu with h1 | h1
            · subst h1
              exact ⟨rfl, Nat.le_add_right _ _, hbt⟩
            · obtain ⟨h2, h3, h4⟩ := hmem u h1
              exact ⟨h2, le_trans (Nat.le_add_right _ _) h3, h4⟩
          · rw [List.chain'_cons']
            refine ⟨?_, hch⟩
            intro v hv
            exact (hmem v (List.mem_of_mem_head? hv)).2.1
        · have he' : emit i = false := by
            cases hemit : emit i
            · rfl
            · exact absurd hemit he
          refine ⟨us, pre, total, ?_, hpre, by omega, htf, ?_, hch⟩
          · simp only [seqReadLoop, if_pos h, if_neg hg, he', Bool.false_eq_true,
              if_false, heq]
          · intro u hu
            obtain ⟨h2, h3, h4⟩ := hmem u hu
            exact ⟨h2, le_trans (Nat.le_add_right _ _) h3, h4⟩
    · have hbf : bytes = fs := by omega
      subst hbf
      refine ⟨[⟨bytes, bytes⟩], [], bytes, ?_, rfl, le_refl _, le_refl _, ?_, ?_⟩
      · simp [seqReadLoop, h]
      · intro u hu
        rcases List.mem_cons.mp hu with h1 | h1
        · subst h1; exact ⟨rfl, le_refl _, le_refl _⟩
        · cases h1
      · exact List.chain'_singleton _

theorem chain'_completion {fs : Nat} {us : List ProgressUpdate}
    (hmem : ∀ u ∈ us, u.total_bytes = fs)
    (hch : us.Chain' (fun u v => u.bytes_processed ≤ v.bytes_processed)) :
    us.Chain' (fun u v => u.completion_percentage ≤ v.completion_percentage) := by
  induction us with
  | nil => exact List.chain'_nil
  | cons a l ih =>
    rw [List.chain'_cons'] at hch ⊢
    refine ⟨?_, ih (fun u hu => hmem u (List.mem_cons_of_mem _ hu)) hch.2⟩
    intro v hv
    have hb := hch.1 v hv
    have ha := hmem a (List.mem_cons_self _ _)
    have hvm := hmem v (List.mem_cons_of_mem _ (List.mem_of_mem_head? hv))
    unfold ProgressUpdate.completion_percentage
    rw [ha, hvm]
    by_cases hz : fs = 0
    · simp [hz]
    · rw [if_neg hz, if_neg hz]
      have hb' : (a.bytes_processed : ℚ) ≤ (v.bytes_processed : ℚ) := by exact_mod_cast hb
      have hfs : (0 : ℚ) < (fs : ℚ) := by exact_mod_cast Nat.pos_of_ne_zero hz
      gcongr

theorem completion_full {fs : Nat} (h : 0 < fs) :
    (ProgressUpdate.mk fs fs).completion_percentage = 1 := by
  have hne : fs ≠ 0 := Nat.pos_iff_ne_zero.mp h
  simp only [ProgressUpdate.completion_percentage, hne, if_false]
  exact div_self (by exact_mod_cast hne)

/-- C2: for any configuration with at least one worker, the file size handed to each
sequential worker equals the configured total divided by the worker count with
integer division (for one worker the code skips the division, which agrees with
dividing by one); in the 2097152-byte two-worker scenario that is exactly 1048576
bytes, and a worker running the sequential write loop on its share processes exactly
that many bytes. -/
theorem spawn_sequential_partition (c : BenchmarkConfig) (h : 1 ≤ c.thread_count) :
    spawn_worker_file_size c = c.file_size / c.thread_count
    ∧ (c.file_size = 2097152 → c.thread_count = 2 → spawn_worker_file_size c = 1048576)
    ∧ (∀ bs emit, 0 < bs →
        ∃ us, run_sequential_write (spawn_worker_file_size c) bs emit true
          = .ok (us, spawn_worker_file_size c)) := by
  have h1 : spawn_worker_file_size c = c.file_size / c.thread_count := by
    unfold spawn_worker_file_size
    by_cases ht : 1 < c.thread_count
    · rw [if_pos ht]
    · rw [if_neg ht]
      have ht1 : c.thread_count = 1 := by omega
      rw [ht1, Nat.div_one]
  refine ⟨h1, ?_, ?_⟩
  · intro hf ht2
    rw [h1, hf, ht2]
  · intro bs emit hbs
    obtain ⟨us, pre, heq, _⟩ :=
      seqWriteLoop_ok (spawn_worker_file_size c) bs emit hbs
        (spawn_worker_file_size c + 1) 0 0 (Nat.zero_le _) (by omega)
    exact ⟨us, heq⟩

theorem spawn_sequential_partition_witness :
    spawn_worker_file_size ⟨true, true, .sequentialWrite, 2097152, 65536, 30000000000, 2, false⟩
      = 1048576
    ∧ ∃ us, run_sequential_write 1048576 65536 (fun _ => false) true = .ok (us, 1048576) := by
  have T := spawn_sequential_partition
    ⟨true, true, .sequentialWrite, 2097152, 65536, 30000000000, 2, false⟩ (by decide)
  have he := T.2.1 rfl rfl
  refine ⟨he, ?_⟩
  have h2 := T.2.2 65536 (fun _ => false) (by decide)
  rw [he] at h2
  exact h2

/-- C3 (amended): for a sequential run with positive file size over any timing of the
progress timer and any disk behavior, the emitted update stream has monotonically
non-decreasing completion percentage and always ends with one final update carrying
the total bytes processed; that final update reads exactly 1.0 whenever the run
processed the full file size, which the write path always does, while a read run that
hits end-of-file early still completes normally but its final update reports the
short byte count (completion below 1.0). -/
theorem sequential_progress_monotone (fs bs : Nat) (readRes : Nat → Nat)
    (emitW emitR : Nat → Bool) (hfs : 0 < fs) :
    (0 < bs → ∃ us, run_sequential_write fs bs emitW true = .ok (us, fs)
       ∧ us.Chain' (fun u v => u.completion_percentage ≤ v.completion_percentage)
       ∧ us.getLast? = some ⟨fs, fs⟩
       ∧ (ProgressUpdate.mk fs fs).completion_percentage = 1)
    ∧ (∃ us total, run_sequential_read fs bs readRes emitR true = .ok (us, total)
       ∧ us.Chain' (fun u v => u.completion_percentage ≤ v.completion_percentage)
       ∧ us.getLast? = some ⟨total, fs⟩
       ∧ (total = fs → (ProgressUpdate.mk total fs).completion_percentage = 1)) := by
  constructor
  · intro hbs
    obtain ⟨us, pre, heq, hpre, hmem, hch⟩ :=
      seqWriteLoop_ok fs bs emitW hbs (fs + 1) 0 0 (Nat.zero_le _) (by omega)
    refine ⟨us, heq, chain'_completion (fun u hu => (hmem u hu).1) hch, ?_,
      completion_full hfs⟩
    rw [hpre]
    exact List.getLast?_concat _
  · obtain ⟨us, pre, total, heq, hpre, hbt, htf, hmem, hch⟩ :=
      seqReadLoop_ok fs bs readRes emitR (fs + 1) 0 0 (Nat.zero_le _) (by omega)
    refine ⟨us, total, heq, chain'_completion (fun u hu => (hmem u hu).1) hch, ?_, ?_⟩
    · rw [hpre]
      exact List.getLast?_concat _
    · intro ht
      subst ht
      exact completion_full hfs

/-- C3 counterexample to the claim as stated: a sequential read of a 1024-byte target
that hits end-of-file after 512 bytes returns successfully, but its final (and last)
progress update has completion 512/1024, not 1.0. -/
theorem sequential_read_short_final_below_one :
    run_sequential_read 1024 512 (fun k => if k = 0 then 512 else 0) (fun _ => true) true
      = .ok ([⟨512, 1024⟩, ⟨512, 1024⟩], 512)
    ∧ (ProgressUpdate.mk 512 1024).completion_percentage ≠ 1 := by
  constructor
  · rfl
  · norm_num [ProgressUpdate.completion_percentage]

theorem sequential_progress_monotone_witness :
    0 < 1024
    ∧ (∃ us, run_sequential_write 1024 512 (fun _ => false) true = .ok (us, 1024)
        ∧ us.Chain' (fun u v => u.completion_percentage ≤ v.completion_percentage)
        ∧ us.getLast? = some ⟨1024, 1024⟩
        ∧ (ProgressUpdate.mk 1024 1024).completion_percentage = 1) :=
  ⟨by decide,
    (sequential_progress_monotone 1024 512 (fun _ => 0) (fun _ => false) (fun _ => false)
      (by decide)).1 (by decide)⟩

/-- C8 (amended): when the progress receiver is gone, a failed send of an in-loop
progress update aborts the run with the cancellation-style error (sequential write and
read abort with the benchmark-cancelled error, the random loop with the
receiver-dropped cancellation error); 0 < readRes 0 keeps the first read off the
end-of-file path and the clock and fuel bounds make the first random iteration
happen. -/
theorem progress_send_failure_cancels (fs bs dur fuel : Nat) (emit : Nat → Bool)
    (readRes : Nat → Nat) (clock : Nat → Nat) (draw : Nat → ℚ) (ratio : ℚ)
    (hfs : 0 < fs) (hbs : 0 < bs) (hemit : emit 0 = true) (hread : 0 < readRes 0)
    (hclock : clock 0 < dur) (hfuel : 0 < fuel) :
    run_sequential_write fs bs emit false = .error "Benchmark cancelled"
    ∧ run_sequential_read fs bs readRes emit false = .error "Benchmark cancelled"
    ∧ random_run dur bs ratio clock draw emit false fuel = .error "Receiver dropped" := by
  refine ⟨?_, ?_, ?_⟩
  · unfold run_sequential_write
    have hmin : ¬ (min (fs - 0) bs = 0) := by omega
    simp only [seqWriteLoop]
    rw [if_pos hfs, if_neg hmin, hemit]
    simp
  · unfold run_sequential_read
    have hmin : ¬ (min (readRes 0) (min (fs - 0) bs) = 0) := by omega
    simp only [seqReadLoop]
    rw [if_pos hfs, if_neg hmin, hemit]
    simp
  · obtain ⟨m, rfl⟩ : ∃ m, fuel = m + 1 := ⟨fuel - 1, by omega⟩
    unfold random_run
    simp only [randLoop]
    rw [if_neg (by omega : ¬ dur ≤ clock 0)]
    simp [hemit]

/-- C8 counterexample to the claim as stated: with the receiver gone for the whole
run, a one-block sequential write performs no in-loop emission, its final 100 percent
update send fails and is ignored, and the run still returns its ok result instead of
aborting. -/
theorem final_send_failure_ignored :
    run_sequential_write 512 512 (fun _ => false) false = .ok ([⟨512, 512⟩], 512) := rfl

theorem progress_send_failure_cancels_witness :
    run_sequential_write 512 512 (fun _ => true) false = .error "Benchmark cancelled"
    ∧ run_sequential_read 512 512 (fun _ => 512) (fun _ => true) false
        = .error "Benchmark cancelled"
    ∧ random_run 1000 512 0 (fun _ => 0) (fun _ => 0) (fun _ => true) false 1
        = .error "Receiver dropped" :=
  progress_send_failure_cancels 512 512 1000 1 (fun _ => true) (fun _ => 512)
    (fun _ => 0) (fun _ => 0) 0 (by decide) (by decide) (by decide) (by decide)
    (by decide) (by decide)

theorem randLoop_ratio_zero_ok (dur bs : Nat) (clock : Nat → Nat) (draw : Nat → ℚ)
    (emit : Nat → Bool) (hdraw : ∀ k, 0 ≤ draw k) :
    ∀ fuel k, ∃ ops bytes,
      randLoop dur bs 0 clock draw emit true fuel k = .ok (ops, bytes)
      ∧ (∀ o ∈ ops, o = RWOp.write) ∧ bytes = bs * ops.length := by
  intro fuel
  induction fuel with
  | zero =>
    intro k
    refine ⟨[], 0, rfl, ?_, ?_⟩
    · intro o ho; cases ho
    · simp
  | succ fuel ih =>
    intro k
    by_cases hc : dur ≤ clock k
    · refine ⟨[], 0, ?_, ?_, ?_⟩
      · simp [randLoop, hc]
      · intro o ho; cases ho
      · simp
    · obtain ⟨ops, bytes, heq, hops, hlen⟩ := ih (k + 1)
      refine ⟨RWOp.write :: ops, bytes + bs, ?_, ?_, ?_⟩
      · have hnr : ¬ (draw k < (0 : ℚ)) := not_lt.mpr (hdraw k)
        simp only [randLoop, if_neg hc, if_neg hnr]
        rw [if_neg (by simp)]
        rw [heq]
      · intro o ho
        rcases List.mem_cons.mp ho with h1 | h1
        · exact h1
        · exact hops o h1
      · simp [hlen, Nat.mul_succ]

/-- C9: running the random loop with read ratio 0.0, a live receiver, a positive
block size and a duration that has not yet elapsed at the first check (so at least one
iteration runs, which a positive fuel bound permits) succeeds; every operation it
performs, hence every latency sample it records, is a write, and the final
bytes_processed is positive. -/
theorem random_ratio_zero_all_writes (dur bs fuel : Nat) (clock : Nat → Nat)
    (draw : Nat → ℚ) (emit : Nat → Bool) (hbs : 0 < bs) (hdraw : ∀ k, 0 ≤ draw k)
    (hclock : clock 0 < dur) (hfuel : 0 < fuel) :
    ∃ ops bytes, random_run dur bs 0 clock draw emit true fuel = .ok (ops, bytes)
      ∧ (∀ o ∈ ops, o = RWOp.write) ∧ 0 < bytes := by
  obtain ⟨m, rfl⟩ : ∃ m, fuel = m + 1 := ⟨fuel - 1, by omega⟩
  obtain ⟨ops, bytes, heq, hops, hlen⟩ := randLoop_ratio_zero_ok dur bs clock draw emit hdraw m 1
  refine ⟨RWOp.write :: ops, bytes + bs, ?_, ?_, by omega⟩
  · have hnr : ¬ (draw 0 < (0 : ℚ)) := not_lt.mpr (hdraw 0)
    unfold random_run
    simp only [randLoop, if_neg (by omega : ¬ dur ≤ clock 0), if_neg hnr]
    rw [if_neg (by simp)]
    rw [heq]
  · intro o ho
    rcases List.mem_cons.mp ho with h1 | h1
    · exact h1
    · exact hops o h1

theorem random_ratio_zero_all_writes_witness :
    ∃ ops bytes,
      random_run 500000000 4096 0 (fun _ => 0) (fun _ => 0) (fun _ => false) true 1
        = .ok (ops, bytes)
      ∧ (∀ o ∈ ops, o = RWOp.write) ∧ 0 < bytes :=
  random_ratio_zero_all_writes 500000000 4096 1 (fun _ => 0) (fun _ => 0) (fun _ => false)
    (by decide) (fun _ => le_refl 0) (by decide) (by decide)

theorem pool_step_preserves (p : BufferPool) (op : PoolOp)
    (h : p.buffers.length ≤ p.max_buffers) :
    (p.step op).buffers.length ≤ p.max_buffers
    ∧ (p.step op).max_buffers = p.max_buffers := by
  obtain ⟨bufs, bsz, mx⟩ := p
  cases op with
  | get =>
    cases bufs with
    | nil => exact ⟨h, rfl⟩
    | cons b rest =>
      refine ⟨?_, rfl⟩
      simp only [BufferPool.step, BufferPool.get_buffer]
      simp only [List.length_cons] at h
      omega
  | ret b =>
    simp only [BufferPool.step, BufferPool.return_buffer]
    split_ifs with h1 h2
    · refine ⟨?_, rfl⟩
      simp only at h h2 ⊢
      simp at h2 ⊢
      omega
    · exact ⟨h, rfl⟩
    · exact ⟨h, rfl⟩

theorem pool_runOps_bound (ops : List PoolOp) :
    ∀ p : BufferPool, p.buffers.length ≤ p.max_buffers →
      (p.runOps ops).buffers.length ≤ p.max_buffers
      ∧ (p.runOps ops).max_buffers = p.max_buffers := by
  induction ops with
  | nil => intro p h; exact ⟨h, rfl⟩
  | cons op rest ih =>
    intro p h
    obtain ⟨hstep, hmax⟩ := pool_step_preserves p op h
    obtain ⟨h1, h2⟩ := ih (p.step op) (by rw [hmax]; exact hstep)
    unfold BufferPool.runOps at h1 h2 ⊢
    rw [List.foldl_cons]
    exact ⟨by rw [← hmax]; exact h1, by rw [← hmax]; exact h2⟩

set_option maxRecDepth 8000

/-- C6: from any pool state whose deque respects the bound (in particular a freshly
built pool), no interleaving of acquisitions and returns ever leaves more than
max_buffers pooled buffers; and in the scenario of a 512-byte two-buffer pool with
three acquisitions followed by three returns the pool ends holding exactly two
buffers. -/
theorem buffer_pool_bounded (p : BufferPool) (ops : List PoolOp)
    (h : p.buffers.length ≤ p.max_buffers) :
    (p.runOps ops).buffers.length ≤ p.max_buffers
    ∧ ((BufferPool.mk [] 512 2).runOps
        [PoolOp.get, PoolOp.get, PoolOp.get,
         PoolOp.ret (List.replicate 512 0), PoolOp.ret (List.replicate 512 0),
         PoolOp.ret (List.replicate 512 0)]).buffers.length = 2 := by
  refine ⟨(pool_runOps_bound ops p h).1, ?_⟩
  rfl

theorem buffer_pool_bounded_witness :
    ((BufferPool.mk [] 512 2).runOps
        [PoolOp.get, PoolOp.ret (List.replicate 512 0)]).buffers.length ≤ 2
    ∧ ((BufferPool.mk [] 512 2).runOps
        [PoolOp.get, PoolOp.get, PoolOp.get,
         PoolOp.ret (List.replicate 512 0), PoolOp.ret (List.replicate 512 0),
         PoolOp.ret (List.replicate 512 0)]).buffers.length = 2 :=
  buffer_pool_bounded (BufferPool.mk [] 512 2)
    [PoolOp.get, PoolOp.ret (List.replicate 512 0)] (by decide)

theorem worker_handle_invariant {w : WorkerInfo} (h : WorkerReachable w) :
    w.handle ≠ none → w.status = .running ∨ w.status = .cancelled := by
  induction h with
  | init => intro hh; exact absurd rfl hh
  | step hr hs ih =>
    rename_i v v'
    cases hs with
    | spawn r => intro _; exact Or.inl rfl
    | cancel =>
      unfold cancel_worker
      by_cases ha : v.is_active = true
      · rw [if_pos ha]
        intro _
        exact Or.inr rfl
      · rw [if_neg ha]
        exact ih
    | join =>
      unfold join_worker
      cases hh : v.handle with
      | none => exact ih
      | some r =>
        cases r with
        | none =>
          intro hc
          exact absurd rfl hc
        | some e =>
          intro hc
          exact absurd rfl hc

theorem is_active_iff (w : WorkerInfo) : w.is_active = true ↔ w.status = .running := by
  unfold WorkerInfo.is_active
  cases hs : w.status <;> simp

theorem cancel_worker_skip (w : WorkerInfo) (h : w.is_active = false) :
    cancel_worker w = w := by
  unfold cancel_worker
  rw [h]
  simp

theorem join_worker_skip (w : WorkerInfo) (h : w.handle = none) : join_worker w = w := by
  unfold join_worker
  rw [h]

/-- C7 (amended): a reachable worker only moves along Idle to Running to the terminal
set, except that wait-for-completion overwrites a Cancelled worker whose join handle
was never taken with Completed or Failed; cancellation is idempotent, leaving any
non-running (in particular already-completed or already-cancelled) worker unchanged;
and the Completed and Failed states, whose handle is already taken, are never changed
by either cancellation or joining. -/
theorem worker_lifecycle (w w2 : WorkerInfo) (hw : WorkerReachable w) :
    (w.is_active = false → cancel_worker w = w)
    ∧ (WorkerStep w w2 →
        w2 = w
        ∨ (w.status = .idle ∧ w2.status = .running)
        ∨ (w.status = .running ∧ w2.is_completed = true)
        ∨ (w.status = .cancelled ∧ w.handle ≠ none
            ∧ (w2.status = .completed ∨ ∃ e, w2.status = .failed e)))
    ∧ ((w.status = .completed ∨ ∃ e, w.status = .failed e) →
        cancel_worker w = w ∧ join_worker w = w) := by
  refine ⟨cancel_worker_skip w, ?_, ?_⟩
  · intro hs
    cases hs with
    | spawn r => exact Or.inr (Or.inl ⟨rfl, rfl⟩)
    | cancel =>
      by_cases ha : w.is_active = true
      · refine Or.inr (Or.inr (Or.inl ⟨(is_active_iff w).mp ha, ?_⟩))
        unfold cancel_worker
        rw [ha]
        simp [WorkerInfo.is_completed]
      · exact Or.inl (cancel_worker_skip w (by
          cases hb : w.is_active
          · rfl
          · exact absurd hb ha))
    | join =>
      cases hh : w.handle with
      | none => exact Or.inl (join_worker_skip w hh)
      | some r =>
        have hst := worker_handle_invariant hw (by rw [hh]; simp)
        rcases hst with hrun | hcan
        · refine Or.inr (Or.inr (Or.inl ⟨hrun, ?_⟩))
          unfold join_worker
          rw [hh]
          cases r with
          | none => rfl
          | some e => rfl
        · refine Or.inr (Or.inr (Or.inr ⟨hcan, fun hc => Option.noConfusion hc, ?_⟩))
          unfold join_worker
          rw [hh]
          cases r with
          | none => exact Or.inl rfl
          | some e => exact Or.inr ⟨e, rfl⟩
  · intro hterm
    have hna : w.is_active = false := by
      unfold WorkerInfo.is_active
      rcases hterm with h2 | ⟨e, h2⟩ <;> rw [h2]
    have hh : w.handle = none := by
      by_contra hne
      rcases worker_handle_invariant hw hne with h1 | h1 <;>
        rcases hterm with h2 | ⟨e, h2⟩ <;> rw [h1] at h2 <;> cases h2
    exact ⟨cancel_worker_skip w hna, join_worker_skip w hh⟩

/-- C7 counterexample to terminal-state stability as claimed: the worker state
Cancelled with a pending join handle is reachable (spawn, then cancel-all), and a
subsequent wait-for-completion join overwrites it to Completed, so a state in the
terminal set does change afterwards. -/
theorem cancelled_worker_overwritten :
    WorkerReachable ⟨.cancelled, some none⟩
    ∧ (join_worker ⟨.cancelled, some none⟩).status = .completed
    ∧ WorkerStatus.completed ≠ WorkerStatus.cancelled := by
  refine ⟨?_, rfl, by simp⟩
  exact .step (.step .init (.spawn none)) (.cancel ⟨.running, some none⟩)

theorem worker_lifecycle_witness :
    cancel_worker ⟨.completed, none⟩ = ⟨.completed, none⟩
    ∧ join_worker ⟨.completed, none⟩ = ⟨.completed, none⟩ :=
  (worker_lifecycle ⟨.completed, none⟩ ⟨.completed, none⟩
      (.step (.step .init (.spawn none)) (.join ⟨.running, some none⟩))).2.2
    (Or.inl rfl)

theorem durationSecs_pos (t : Nat) : 0 < durationSecs t ↔ 0 < t := by
  unfold durationSecs
  rw [div_pos_iff]
  constructor
  · rintro (⟨h1, _⟩ | ⟨_, h2⟩)
    · exact_mod_cast h1
    · norm_num at h2
  · intro h
    exact Or.inl ⟨by exact_mod_cast h, by norm_num⟩

theorem sortNat_length (l : List Nat) : (sortNat l).length = l.length :=
  List.length_insertionSort _ l

/-- C4: the final metrics of a sequential run with bytes b, elapsed t and a non-empty
latency sample list s satisfy: throughput in MiB per second is b over 1048576 divided
by the elapsed seconds, and zero when the elapsed time is zero; iops is the sample
count divided by the elapsed seconds, and zero when the elapsed time is zero; the
latency percentiles at ranks 50, 95 and 99 are the entries of the ascending-sorted
sample list at the truncated index length times rank over 100; and min and max are the
first and last sorted entries. -/
theorem calculate_metrics_spec (b t : Nat) (s : List Nat) (hs : s ≠ []) :
    (calculate_metrics b t s).throughput_mbps
        = (if 0 < t then (b : ℚ) / (1024 * 1024) / durationSecs t else 0)
    ∧ (calculate_metrics b t s).iops
        = (if 0 < t then (s.length : ℚ) / durationSecs t else 0)
    ∧ (calculate_metrics b t s).latency.min = (sortNat s).getD 0 0
    ∧ (calculate_metrics b t s).latency.max = (sortNat s).getD (s.length - 1) 0
    ∧ (calculate_metrics b t s).latency.percentiles
        = [(50, (sortNat s).getD (s.length * 50 / 100) 0),
           (95, (sortNat s).getD (s.length * 95 / 100) 0),
           (99, (sortNat s).getD (s.length * 99 / 100) 0)] := by
  unfold calculate_metrics
  simp only [hs, if_false, durationSecs_pos, sortNat_length]
  simp

theorem calculate_metrics_spec_witness :
    ([7, 3, 11] : List Nat) ≠ []
    ∧ ((calculate_metrics 2048 1000000000 [7, 3, 11]).throughput_mbps
          = (if 0 < 1000000000 then (2048 : ℚ) / (1024 * 1024) / durationSecs 1000000000 else 0)
        ∧ (calculate_metrics 2048 1000000000 [7, 3, 11]).iops
          = (if 0 < 1000000000 then (([7, 3, 11] : List Nat).length : ℚ) / durationSecs 1000000000 else 0)
        ∧ (calculate_metrics 2048 1000000000 [7, 3, 11]).latency.min = (sortNat [7, 3, 11]).getD 0 0
        ∧ (calculate_metrics 2048 1000000000 [7, 3, 11]).latency.max
          = (sortNat [7, 3, 11]).getD (([7, 3, 11] : List Nat).length - 1) 0
        ∧ (calculate_metrics 2048 1000000000 [7, 3, 11]).latency.percentiles
          = [(50, (sortNat [7, 3, 11]).getD (([7, 3, 11] : List Nat).length * 50 / 100) 0),
             (95, (sortNat [7, 3, 11]).getD (([7, 3, 11] : List Nat).length * 95 / 100) 0),
             (99, (sortNat [7, 3, 11]).getD (([7, 3, 11] : List Nat).length * 99 / 100) 0)]) :=
  ⟨by decide, calculate_metrics_spec 2048 1000000000 [7, 3, 11] (by decide)⟩

/-- C1: combining a non-empty list of per-worker results succeeds and yields metrics
whose bytes_processed is the sum of the per-worker bytes_processed values, whose elapsed_time
is the maximum elapsed_time across the workers (an upper bound that is attained), and
whose latency statistics are exactly the stats-from-samples recomputation of the repository
applied to the concatenated min/avg/max triplet of every worker; the empty list is
rejected with the no-results error. -/
theorem combine_results_spec (block_size : Nat) (results : List BenchmarkResultM)
    (hne : results ≠ []) :
    (∃ r, combine_results block_size results = .ok r
       ∧ r.metrics.bytes_processed = (results.map (fun x => x.metrics.bytes_processed)).sum
       ∧ (∀ x ∈ results, x.metrics.elapsed_time ≤ r.metrics.elapsed_time)
       ∧ r.metrics.elapsed_time ∈ results.map (fun x => x.metrics.elapsed_time)
       ∧ r.metrics.latency = LatencyStats.from_samples
           (results.flatMap (fun x =>
             [x.metrics.latency.min, x.metrics.latency.avg, x.metrics.latency.max])))
    ∧ combine_results block_size ([] : List BenchmarkResultM)
        = .error "No results to combine" := by
  refine ⟨?_, rfl⟩
  obtain ⟨r0, rest, rfl⟩ : ∃ r0 rest, results = r0 :: rest := by
    cases results with
    | nil => exact absurd rfl hne
    | cons a l => exact ⟨a, l, rfl⟩
  refine ⟨_, rfl, rfl, ?_, ?_, rfl⟩
  · intro x hx
    show x.metrics.elapsed_time ≤
      (((r0 :: rest).map (fun y => y.metrics.elapsed_time)).foldl Nat.max 0)
    exact mem_le_foldl_max _ 0 _ (List.mem_map_of_mem _ hx)
  · show (((r0 :: rest).map (fun y => y.metrics.elapsed_time)).foldl Nat.max 0)
      ∈ (r0 :: rest).map (fun y => y.metrics.elapsed_time)
    rcases foldl_max_mem ((r0 :: rest).map (fun y => y.metrics.elapsed_time)) 0 with h0 | hm
    · have hr0 := mem_le_foldl_max ((r0 :: rest).map (fun y => y.metrics.elapsed_time)) 0
        (r0.metrics.elapsed_time)
        (List.mem_map_of_mem _ (List.mem_cons_self _ _))
      rw [h0] at hr0 ⊢
      have hz : r0.metrics.elapsed_time = 0 := by omega
      rw [← hz]
      exact List.mem_map_of_mem _ (List.mem_cons_self _ _)
    · exact hm

theorem combine_results_spec_witness :
    ([BenchmarkResultM.mk ⟨100, 7, 0, 0, ⟨1, 2, 3, []⟩⟩,
      BenchmarkResultM.mk ⟨50, 9, 0, 0, ⟨2, 4, 6, []⟩⟩] : List BenchmarkResultM) ≠ []
    ∧ (∃ r, combine_results 512
          [BenchmarkResultM.mk ⟨100, 7, 0, 0, ⟨1, 2, 3, []⟩⟩,
           BenchmarkResultM.mk ⟨50, 9, 0, 0, ⟨2, 4, 6, []⟩⟩] = .ok r
        ∧ r.metrics.bytes_processed
            = (([BenchmarkResultM.mk ⟨100, 7, 0, 0, ⟨1, 2, 3, []⟩⟩,
                 BenchmarkResultM.mk ⟨50, 9, 0, 0, ⟨2, 4, 6, []⟩⟩].map
                  (fun x => x.metrics.bytes_processed)).sum)
        ∧ (∀ x ∈ [BenchmarkResultM.mk ⟨100, 7, 0, 0, ⟨1, 2, 3, []⟩⟩,
                  BenchmarkResultM.mk ⟨50, 9, 0, 0, ⟨2, 4, 6, []⟩⟩],
              x.metrics.elapsed_time ≤ r.metrics.elapsed_time)
        ∧ r.metrics.elapsed_time
            ∈ [BenchmarkResultM.mk ⟨100, 7, 0, 0, ⟨1, 2, 3, []⟩⟩,
               BenchmarkResultM.mk ⟨50, 9, 0, 0, ⟨2, 4, 6, []⟩⟩].map
                (fun x => x.metrics.elapsed_time)
        ∧ r.metrics.latency = LatencyStats.from_samples
            ([BenchmarkResultM.mk ⟨100, 7, 0, 0, ⟨1, 2, 3, []⟩⟩,
              BenchmarkResultM.mk ⟨50, 9, 0, 0, ⟨2, 4, 6, []⟩⟩].flatMap
               (fun x =>
                 [x.metrics.latency.min, x.metrics.latency.avg, x.metrics.latency.max]))) :=
  ⟨by simp,
    (combine_results_spec 512
      [BenchmarkResultM.mk ⟨100, 7, 0, 0, ⟨1, 2, 3, []⟩⟩,
       BenchmarkResultM.mk ⟨50, 9, 0, 0, ⟨2, 4, 6, []⟩⟩] (by simp)).1⟩

theorem mixed_ratio_ok_iff (m : BenchmarkMode) :
    m.mixed_ratio_out_of_range = false ↔ ∀ r, m = .mixed r → 0 ≤ r ∧ r ≤ 1 := by
  cases m with
  | sequentialWrite => simp [BenchmarkMode.mixed_ratio_out_of_range]
  | sequentialRead => simp [BenchmarkMode.mixed_ratio_out_of_range]
  | randomReadWrite => simp [BenchmarkMode.mixed_ratio_out_of_range]
  | mixed r =>
    simp only [BenchmarkMode.mixed_ratio_out_of_range, decide_eq_false_iff_not, not_or,
      not_lt, BenchmarkMode.mixed.injEq]
    constructor
    · rintro ⟨h1, h2⟩ q hq
      subst hq
      exact ⟨h1, h2⟩
    · intro h
      exact h r rfl

theorem validate_ok_iff (c : BenchmarkConfig) :
    c.validate = .ok () ↔
      (c.path_exists = true ∧ c.path_is_dir = true
        ∧ 0 < c.file_size ∧ c.file_size ≤ 107374182400
        ∧ is_power_of_two c.block_size = true
        ∧ 512 ≤ c.block_size ∧ c.block_size ≤ 1048576
        ∧ (c.mode.uses_file_size = true → c.block_size ≤ c.file_size)
        ∧ 0 < c.duration ∧ c.duration ≤ 3600000000000
        ∧ 1 ≤ c.thread_count ∧ c.thread_count ≤ 64
        ∧ (∀ r, c.mode = .mixed r → 0 ≤ r ∧ r ≤ 1)) := by
  constructor
  · intro hok
    unfold BenchmarkConfig.validate at hok
    by_cases h1 : c.path_exists = false
    · rw [if_pos h1] at hok; exact Except.noConfusion hok
    rw [if_neg h1] at hok
    by_cases h2 : c.path_is_dir = false
    · rw [if_pos h2] at hok; exact Except.noConfusion hok
    rw [if_neg h2] at hok
    by_cases h3 : c.file_size = 0
    · rw [if_pos h3] at hok; exact Except.noConfusion hok
    rw [if_neg h3] at hok
    by_cases h4 : 107374182400 < c.file_size
    · rw [if_pos h4] at hok; exact Except.noConfusion hok
    rw [if_neg h4] at hok
    by_cases h5 : c.block_size = 0
    · rw [if_pos h5] at hok; exact Except.noConfusion hok
    rw [if_neg h5] at hok
    by_cases h6 : is_power_of_two c.block_size = false
    · rw [if_pos h6] at hok; exact Except.noConfusion hok
    rw [if_neg h6] at hok
    by_cases h7 : c.block_size < 512 ∨ 1048576 < c.block_size
    · rw [if_pos h7] at hok; exact Except.noConfusion hok
    rw [if_neg h7] at hok
    by_cases h8 : c.mode.uses_file_size = true ∧ c.file_size < c.block_size
    · rw [if_pos h8] at hok; exact Except.noConfusion hok
    rw [if_neg h8] at hok
    by_cases h9 : c.duration = 0
    · rw [if_pos h9] at hok; exact Except.noConfusion hok
    rw [if_neg h9] at hok
    by_cases h10 : 3600000000000 < c.duration
    · rw [if_pos h10] at hok; exact Except.noConfusion hok
    rw [if_neg h10] at hok
    by_cases h11 : c.thread_count = 0
    · rw [if_pos h11] at hok; exact Except.noConfusion hok
    rw [if_neg h11] at hok
    by_cases h12 : 64 < c.thread_count
    · rw [if_pos h12] at hok; exact Except.noConfusion hok
    rw [if_neg h12] at hok
    by_cases h13 : c.mode.mixed_ratio_out_of_range = true
    · rw [if_pos h13] at hok; exact Except.noConfusion hok
    refine ⟨by simpa using h1, by simpa using h2, by omega, by omega, by simpa using h6,
      by omega, by omega, ?_, by omega, by omega, by omega, by omega, ?_⟩
    · intro hu
      by_contra hlt
      exact h8 ⟨hu, by omega⟩
    · refine (mixed_ratio_ok_iff c.mode).mp ?_
      cases hm : c.mode.mixed_ratio_out_of_range
      · rfl
      · exact absurd hm h13
  · rintro ⟨hp, hd, hfs, hfsle, hpow, hbs1, hbs2, hseq, hdur1, hdur2, htc1, htc2, hmix⟩
    unfold BenchmarkConfig.validate
    rw [if_neg (by simp [hp])]
    rw [if_neg (by simp [hd])]
    rw [if_neg (show ¬ c.file_size = 0 by omega)]
    rw [if_neg (show ¬ 107374182400 < c.file_size by omega)]
    rw [if_neg (show ¬ c.block_size = 0 by omega)]
    rw [if_neg (by simp [hpow])]
    rw [if_neg (show ¬ (c.block_size < 512 ∨ 1048576 < c.block_size) by omega)]
    rw [if_neg (show ¬ (c.mode.uses_file_size = true ∧ c.file_size < c.block_size) by
      rintro ⟨hu, hlt⟩
      have := hseq hu
      omega)]
    rw [if_neg (show ¬ c.duration = 0 by omega)]
    rw [if_neg (show ¬ 3600000000000 < c.duration by omega)]
    rw [if_neg (show ¬ c.thread_count = 0 by omega)]
    rw [if_neg (show ¬ 64 < c.thread_count by omega)]
    rw [if_neg (by simp [(mixed_ratio_ok_iff c.mode).mpr hmix])]

theorem sequential_new_ok_iff (c : BenchmarkConfig) :
    (∃ s, SequentialBenchmark.new c = .ok s) ↔ c.validate = .ok () := by
  constructor
  · rintro ⟨s, hs⟩
    unfold SequentialBenchmark.new at hs
    cases hv : c.validate with
    | error e => rw [hv] at hs; exact Except.noConfusion hs
    | ok u => cases u; rfl
  · intro hv
    have h6 := ((validate_ok_iff c).mp hv).2.2.2.2.2.1
    have hbs : ¬ (c.block_size = 0) := by omega
    have hpool : BufferPool.new c.block_size 4 = .ok ⟨[], c.block_size, 4⟩ := by
      unfold BufferPool.new
      rw [if_neg hbs]
      rfl
    refine ⟨⟨c, ⟨[], c.block_size, 4⟩⟩, ?_⟩
    unfold SequentialBenchmark.new
    rw [hv, hpool]

theorem random_new_ok_iff (c : BenchmarkConfig) :
    (∃ s, RandomBenchmark.new c = .ok s) ↔ c.validate = .ok () := by
  constructor
  · rintro ⟨s, hs⟩
    unfold RandomBenchmark.new at hs
    cases hv : c.validate with
    | error e => rw [hv] at hs; exact Except.noConfusion hs
    | ok u => cases u; rfl
  · intro hv
    have h6 := ((validate_ok_iff c).mp hv).2.2.2.2.2.1
    have hbs : ¬ (c.block_size = 0) := by omega
    have hpool : BufferPool.new c.block_size 4 = .ok ⟨[], c.block_size, 4⟩ := by
      unfold BufferPool.new
      rw [if_neg hbs]
      rfl
    refine ⟨⟨c, ⟨[], c.block_size, 4⟩⟩, ?_⟩
    unfold RandomBenchmark.new
    rw [hv, hpool]

theorem worker_manager_new_ok_iff (c : BenchmarkConfig) :
    (∃ s, WorkerManager.new c = .ok s) ↔ c.validate = .ok () := by
  constructor
  · rintro ⟨s, hs⟩
    unfold WorkerManager.new at hs
    cases hv : c.validate with
    | error e => rw [hv] at hs; exact Except.noConfusion hs
    | ok u => cases u; rfl
  · intro hv
    have h6 := ((validate_ok_iff c).mp hv).2.2.2.2.2.1
    have hbs : ¬ (c.block_size = 0) := by omega
    have hpool : BufferPool.new c.block_size 16 = .ok ⟨[], c.block_size, 16⟩ := by
      unfold BufferPool.new
      rw [if_neg hbs]
      rfl
    refine ⟨⟨c, [], ⟨[], c.block_size, 16⟩⟩, ?_⟩
    unfold WorkerManager.new
    rw [hv, hpool]

/-- C5: validate accepts a configuration exactly when the path exists and is a
directory, the file size is positive and at most 100 GiB, the block size is a power of
two between 512 bytes and 1 MiB, the file size is at least the block size in the two
sequential modes, the duration is positive and at most one hour, the worker count is
between 1 and 64, and a Mixed read ratio lies in the closed unit interval; and each of
the three executor constructors succeeds exactly when validate accepts, so every one
of them fails fast on a config that validate rejects, before any file is touched. -/
theorem validate_and_constructors_spec (c : BenchmarkConfig) :
    (c.validate = .ok () ↔
      (c.path_exists = true ∧ c.path_is_dir = true
        ∧ 0 < c.file_size ∧ c.file_size ≤ 107374182400
        ∧ is_power_of_two c.block_size = true
        ∧ 512 ≤ c.block_size ∧ c.block_size ≤ 1048576
        ∧ (c.mode.uses_file_size = true → c.block_size ≤ c.file_size)
        ∧ 0 < c.duration ∧ c.duration ≤ 3600000000000
        ∧ 1 ≤ c.thread_count ∧ c.thread_count ≤ 64
        ∧ (∀ r, c.mode = .mixed r → 0 ≤ r ∧ r ≤ 1)))
    ∧ ((∃ s, SequentialBenchmark.new c = .ok s) ↔ c.validate = .ok ())
    ∧ ((∃ s, RandomBenchmark.new c = .ok s) ↔ c.validate = .ok ())
    ∧ ((∃ s, WorkerManager.new c = .ok s) ↔ c.validate = .ok ()) :=
  ⟨validate_ok_iff c, sequential_new_ok_iff c, random_new_ok_iff c,
    worker_manager_new_ok_iff c⟩
